import Mathlib

/-
  Verification of the helix interactive fuzzy picker
  (src/helix-term/src/ui/picker.rs and src/helix-term/src/ui/picker/query.rs)
  against its natural-language specification.

  Shallow embedding conventions:
  * Strings are embedded as `List Char` (Rust iterates `input.chars()`).
  * `HashMap<Arc<str>, Arc<str>>` is embedded as an association list without
    duplicate keys; the semantic mapping is exposed through `qget`.
  * Machine integers are embedded as `Nat`; the u32 saturating operations of
    `move_by` are made explicit (`satAdd`, and `Nat` subtraction, which is
    already truncated exactly like `u32::saturating_sub` on in-range values).
  * Fallible operations return `Option`/`Except`; a Rust `unwrap` panic is
    modelled as `none`.
-/

namespace HelixPicker

/-- The backslash character, written via its code point to keep the
literal unambiguous. -/
def bslash : Char := Char.ofNat 92

/-- The double-quote character, written via its code point to keep the
literal unambiguous. -/
def dquote : Char := Char.ofNat 34

/-- Association-list lookup; embeds `HashMap::get` (first match; the lists we
build never contain duplicate keys). -/
def qget : List (List Char × List Char) → List Char → Option (List Char)
  | [], _ => none
  | (k0, v) :: rest, k => if k0 = k then some v else qget rest k

/-- Embeds the body of `finish_field!` acting on the `fields` map: if `key` is
present, push a space and then the new text onto the existing pattern
(`pattern.push(' '); pattern.push_str(&text)`), otherwise insert `(key, text)`. -/
def qinsertAppend : List (List Char × List Char) → List Char → List Char →
    List (List Char × List Char)
  | [], key, text => [(key, text)]
  | (k, v) :: rest, key, text =>
    if k = key then (k, v ++ ' ' :: text) :: rest
    else (k, v) :: qinsertAppend rest key text

/-- The mutable state of the single left-to-right scan in
`query.rs::parse`: the `escaped`, `quoted`, `in_field`, `field`, `text` and
`fields` locals. -/
structure PState where
  escaped : Bool
  quoted : Bool
  inField : Bool
  field : Option (List Char)
  text : List Char
  fields : List (List Char × List Char)
deriving Repr, DecidableEq

/-- Initial parser state. -/
def initPState : PState :=
  { escaped := false, quoted := false, inField := false,
    field := none, text := [], fields := [] }

/-- One step of the fold inside `Iterator::min_by_key` (on key `col.len()`):
keep the accumulator unless the new element is strictly smaller, so the first
of several equal minima wins, exactly as in Rust. -/
def minStep (acc : Option (List Char)) (c : List Char) : Option (List Char) :=
  match acc with
  | none => some c
  | some b => if c.length < b.length then some c else some b

/-- Embeds `iter().min_by_key(|col| col.len())`. -/
def minByLen (l : List (List Char)) : Option (List Char) :=
  l.foldl minStep none

/-- Embeds the `finish_field!` macro of `query.rs::parse`: the destination key
is the pending `field` if one is set, else the primary field; the current
`text` is merged into `fields` and both `field` and `text` are reset. -/
def finishField (primaryField : List Char) (st : PState) : PState :=
  { st with
    field := none
    text := []
    fields := qinsertAppend st.fields (st.field.getD primaryField) st.text }

/-- Embeds the `match ch` body of the scan loop of `query.rs::parse`,
arm for arm and in the same order. -/
def pstep (columnNames : List (List Char)) (primaryField : List Char)
    (st : PState) (ch : Char) : PState :=
  -- '\\' => escaped = !escaped
  if ch = bslash then { st with escaped := !st.escaped }
  -- _ if escaped => { if !matches!(ch, '%' | '"') { text.push('\\') } text.push(ch); escaped = false }
  else if st.escaped = true then
    { st with
      text := st.text ++ (if ch = '%' ∨ ch = dquote then [ch] else [bslash, ch])
      escaped := false }
  -- '"' => quoted = !quoted
  else if ch = dquote then { st with quoted := !st.quoted }
  -- '%' | ':' | ' ' if quoted => text.push(ch)
  else if (ch = '%' ∨ ch = ':' ∨ ch = ' ') ∧ st.quoted = true then
    { st with text := st.text ++ [ch] }
  -- '%' | ' ' if !text.is_empty() => { finish_field!(); in_field = ch == '%' }
  else if (ch = '%' ∨ ch = ' ') ∧ st.text ≠ [] then
    { finishField primaryField st with inField := decide (ch = '%') }
  -- '%' => in_field = true
  else if ch = '%' then { st with inField := true }
  -- ':' if in_field => { field = columns.filter(starts_with).min_by_key(len); text.clear(); in_field = false }
  else if ch = ':' ∧ st.inField = true then
    { st with
      field := minByLen (columnNames.filter (fun col => st.text.isPrefixOf col))
      text := []
      inField := false }
  -- _ => text.push(ch)
  else { st with text := st.text ++ [ch] }

/-- Embeds `query.rs::parse`: fold the scan step over the input characters,
run the trailing `finish_field!` when the scan did not stop inside a `%`
field and there is pending text, and return the resulting map. -/
def parse (columnNames : List (List Char)) (primaryColumn : Nat)
    (input : List Char) : List (List Char × List Char) :=
  let primaryField := columnNames.getD primaryColumn []
  let st := input.foldl (pstep columnNames primaryField) initPState
  let st2 := if st.inField = false ∧ st.text ≠ [] then finishField primaryField st else st
  st2.fields

/-! ### Whitespace collapsing (specification side, for C6)

The claim C6 speaks of the input "whitespace-collapsed": split the input at
spaces, drop the empty pieces and rejoin the words with single spaces. We
compute it with an accumulator fold so that it can be related to the parser
scan step by step. -/

/-- Join a new word onto an optional accumulated pattern with a single space. -/
def joinW (acc : Option (List Char)) (w : List Char) : List Char :=
  match acc with
  | none => w
  | some f => f ++ ' ' :: w

/-- Accumulator fold computing the whitespace-collapse of a character list:
`acc` is the pattern collapsed so far, `cur` the pending word. -/
def collapseAux : Option (List Char) → List Char → List Char →
    Option (List Char) × List Char
  | acc, cur, [] => (acc, cur)
  | acc, cur, c :: rest =>
    if c = ' ' then
      if cur = [] then collapseAux acc cur rest
      else collapseAux (some (joinW acc cur)) [] rest
    else collapseAux acc (cur ++ [c]) rest

/-- The whitespace-collapse of a character list: words rejoined by single
spaces, empty words dropped. -/
def collapse (l : List Char) : List Char :=
  if (collapseAux none [] l).2 = [] then ((collapseAux none [] l).1).getD []
  else joinW (collapseAux none [] l).1 (collapseAux none [] l).2

/-- The scan state reached on inputs of plain characters: all mode flags
clear, no pending field, given fields map and pending text. -/
def cleanSt (fields : List (List Char × List Char)) (text : List Char) : PState :=
  { escaped := false, quoted := false, inField := false,
    field := none, text := text, fields := fields }

/-- The fields map built by the scan on a plain input: empty, or exactly
one entry for the primary field. -/
def fieldsOf (pf : List Char) (acc : Option (List Char)) :
    List (List Char × List Char) :=
  match acc with
  | none => []
  | some f => [(pf, f)]

/-- A character with no syntactic meaning for the query mini-language:
not a percent sign, not a double quote, not a backslash. -/
def plainChar (c : Char) : Prop := c ≠ '%' ∧ c ≠ dquote ∧ c ≠ bslash

instance (c : Char) : Decidable (plainChar c) := by
  unfold plainChar; infer_instance

/-- No two consecutive spaces anywhere in the list. -/
def noDoubleSpace : List Char → Bool
  | a :: b :: rest => (!(a = ' ' && b = ' ' : Bool)) && noDoubleSpace (b :: rest)
  | _ => true

/-! ### Picker, Injector and generation counter
(picker.rs: `Picker`, `Injector`, `InjectorShutdown`, `inject_nucleo_item`) -/

/-- Embeds `Column<T, D>`. The `format` field stands for the plain-text
projection `format_text` of the styled cell (the styling is irrelevant to
every claim). -/
structure Column (T D : Type) where
  name : List Char
  format : T → D → List Char
  filter : Bool

/-- Embeds the error type `InjectorShutdown`. -/
inductive InjectorShutdown where
  | mk
deriving Repr, DecidableEq

/-- The nucleo matcher as far as the claims observe it: the list of injected
items together with the plain-text rows handed to `nucleo::Injector::push`. -/
abbrev Matcher (T : Type) := List (T × List (List Char))

/-- Embeds `inject_nucleo_item`: format every column with `filter = true`
into a plain-text matcher row and submit the item. -/
def injectNucleoItem {T D : Type} (matcher : Matcher T) (columns : List (Column T D))
    (item : T) (editorData : D) : Matcher T :=
  matcher ++ [(item, (columns.filter (fun c => c.filter)).map
    (fun c => c.format item editorData))]

/-- Embeds the fields of `Picker<T, D>` that the claims are about: the column
schema, the shared generation counter `version` (an `AtomicUsize` in the
source; writers are the picker only, so a plain `Nat` is faithful) and the
matcher contents. The purely visual fields (prompt, widths, cursor,
preview cache, ...) are modelled separately by the pure functions below,
which take the state they read explicitly. -/
structure Picker (T D : Type) where
  columns : List (Column T D)
  editorData : D
  version : Nat
  matcher : Matcher T

/-- Embeds `Injector<T, D>`: the column schema, the editor data, the
generation captured at creation time. The live shared counter (the
`picker_version` field) is read from the picker passed to `push`. -/
structure Injector (T D : Type) where
  columns : List (Column T D)
  editorData : D
  version : Nat

/-- Embeds `Picker::injector`: a new injector pinned to the current value of
the generation counter. -/
def Picker.injector {T D : Type} (p : Picker T D) : Injector T D :=
  { columns := p.columns, editorData := p.editorData, version := p.version }

/-- Embeds `Injector::push`: fail with `InjectorShutdown` when the captured
generation differs from the current value of the shared counter, otherwise
inject the item (`inject_nucleo_item`) into the shared matcher. -/
def Injector.push {T D : Type} (inj : Injector T D) (p : Picker T D) (item : T) :
    Except InjectorShutdown (Picker T D) :=
  if inj.version ≠ p.version then Except.error InjectorShutdown.mk
  else Except.ok { p with matcher := injectNucleoItem p.matcher inj.columns item inj.editorData }

/-- Embeds `Picker::set_options`: `matcher.restart(false)` drops every
candidate, then the new options are injected one by one. The generation
counter is not touched. -/
def setOptions {T D : Type} (p : Picker T D) (newOptions : List T) : Picker T D :=
  let m := newOptions.foldl (fun m item => injectNucleoItem m p.columns item p.editorData) []
  { p with matcher := m }

/-- Embeds the `close_fn` branch for pickers with at most 100000 items:
`picker.version.fetch_add(1, Relaxed)` before popping the layer. -/
def closePicker {T D : Type} (p : Picker T D) : Picker T D :=
  { p with version := p.version + 1 }

/-- Embeds `impl Drop for Picker`: `self.version.fetch_add(1, Relaxed)`. -/
def dropPicker {T D : Type} (p : Picker T D) : Picker T D :=
  { p with version := p.version + 1 }

/-- Tests whether an `Except` is the success case. -/
def exceptIsOk {E A : Type} : Except E A → Bool
  | Except.ok _ => true
  | Except.error _ => false

/-! ### Cursor movement (picker.rs: `Picker::move_by`) -/

/-- Embeds `helix_core::movement::Direction`. -/
inductive Direction where
  | forward
  | backward
deriving Repr, DecidableEq

/-- Largest value of a `u32`, the type of the cursor and of
`matched_item_count()`. -/
def U32MAX : Nat := 4294967295

/-- Embeds `u32::saturating_add` on in-range values. -/
def satAdd (a b : Nat) : Nat := min (a + b) U32MAX

/-- Embeds `Picker::move_by`. `cursor`, `amount` and `len` are the `u32`
values `self.cursor`, `amount` and `snapshot().matched_item_count()`.
`u32::saturating_sub` on in-range naturals is exactly truncated `Nat`
subtraction. -/
def moveBy (cursor : Nat) (amount : Nat) (dir : Direction) (len : Nat) : Nat :=
  if len = 0 then cursor
  else
    match dir with
    | Direction.forward => satAdd cursor amount % len
    | Direction.backward => (satAdd cursor len - amount) % len

/-! ### Prompt change handling (picker.rs: `Picker::handle_prompt_change`) -/

/-- Lookup-extensional equality of two query maps; embeds `HashMap`
equality (`new_query != self.query`), which compares the key-value sets. -/
def queryEq (a b : List (List Char × List Char)) : Bool :=
  a.all (fun p => qget b p.1 = some p.2) && b.all (fun p => qget a p.1 = some p.2)

/-- The arguments of one `self.matcher.pattern.reparse(i, pattern, ..,
append)` call issued by `handle_prompt_change` for the filtered column at
filtered-index `i`: the column pattern looked up in the new query (empty when
absent) and the append hint, true exactly when the old query has a pattern
for this column and the new pattern starts with it. -/
def reparseCmd {T D : Type} (newQuery oldQuery : List (List Char × List Char))
    (p : Nat × Column T D) : Nat × List Char × Bool :=
  let pattern := (qget newQuery p.2.name).getD []
  let append := ((qget oldQuery p.2.name).map
    (fun oldPattern => oldPattern.isPrefixOf pattern)).getD false
  (p.1, pattern, append)

/-- Embeds `Picker::handle_prompt_change`: parse the prompt line, and when the
parsed query differs from the stored one, reparse the pattern of every
filtered column (enumerated in order). Returns the stored query after the
call together with the list of issued `reparse` calls. -/
def handlePromptChange {T D : Type} (columns : List (Column T D))
    (columnNames : List (List Char)) (primaryColumn : Nat)
    (oldQuery : List (List Char × List Char)) (line : List Char) :
    List (List Char × List Char) × List (Nat × List Char × Bool) :=
  let newQuery := parse columnNames primaryColumn line
  if queryEq newQuery oldQuery then (oldQuery, [])
  else
    (newQuery,
      ((columns.filter (fun c => c.filter)).enum).map (reparseCmd newQuery oldQuery))

/-! ### Render layout (picker.rs: `Component::render` for `Picker`) -/

/-- Embeds `MIN_AREA_WIDTH_FOR_PREVIEW: u16 = 72`. -/
def MIN_AREA_WIDTH_FOR_PREVIEW : Nat := 72

/-- Embeds the layout decision of `Picker::render`: preview is rendered when
`show_preview && file_fn.is_some() && area.width > MIN_AREA_WIDTH_FOR_PREVIEW`;
the picker gets `area.width / 2` columns in that case and the preview the rest
(`area.clip_left(picker_width)`), otherwise the picker gets the full width.
Returns the picker width and, when the preview is rendered, its width. -/
def renderLayout (showPreview fileFnSome : Bool) (areaWidth : Nat) :
    Nat × Option Nat :=
  let renderPreview :=
    showPreview && fileFnSome && decide (MIN_AREA_WIDTH_FOR_PREVIEW < areaWidth)
  let pickerWidth := if renderPreview then areaWidth / 2 else areaWidth
  (pickerWidth, if renderPreview then some (areaWidth - pickerWidth) else none)

/-! ### Preview resolution (picker.rs: `Picker::get_preview`) -/

/-- Embeds `MAX_FILE_SIZE_FOR_PREVIEW: u64 = 10 * 1024 * 1024`. -/
def MAX_FILE_SIZE_FOR_PREVIEW : Nat := 10 * 1024 * 1024

/-- Embeds `CachedPreview`. -/
inductive CachedPreview (Doc : Type) where
  | document (doc : Doc)
  | binary
  | largeFile
  | notFound

/-- Embeds the transient `Preview` enum. -/
inductive PreviewRes (Doc : Type) where
  | editorDocument (doc : Doc)
  | cached (c : CachedPreview Doc)

/-- Embeds `PathOrId`. Paths are character lists, document ids naturals. -/
inductive PathOrId where
  | path (p : List Char)
  | id (i : Nat)

/-- Outcome of the blocking IO sequence
`File::open(&path).and_then(|file| { file.metadata()?; file.take(1024).read_to_end(&mut buf)?; .. })`.
Modelled from the documented contract of `std::io::Read::read_to_end`:
on error, the bytes already read have been appended to the buffer. -/
inductive SniffResult where
  | openErr
  | metadataErr
  | readErr (bytesRead : List Nat)
  | readOk (bytes : List Nat)

/-- The filesystem and editor facts `get_preview` consults for one path on a
cache miss: `metadata.len()`, the sniff outcome, the verdict of
`content_inspector::inspect` on the sniffed window and the result of
`Document::open`. -/
structure FileInfo (Doc : Type) where
  size : Nat
  sniff : SniffResult
  isBinary : Bool
  docOpen : Option Doc

/-- Generic association-list lookup for the editor registries and the
preview cache. -/
def alookup {A B : Type} [DecidableEq A] : List (A × B) → A → Option B
  | [], _ => none
  | (k0, v) :: rest, k => if k0 = k then some v else alookup rest k

/-- Embeds the cache-miss classification of `Picker::get_preview` acting on
the scratch `read_buffer`: open and metadata failures leave the buffer
untouched and normalize to `NotFound` via `unwrap_or`; a failing sniff read
appends the bytes read so far and the `?` skips the `clear()`; a successful
sniff appends the window, inspects it, clears the buffer and classifies by
content type, size and `Document::open`. Returns the buffer afterwards and
the `CachedPreview` inserted into the cache. -/
def classifyPreview {Doc : Type} (buffer : List Nat) (f : FileInfo Doc) :
    List Nat × CachedPreview Doc :=
  match f.sniff with
  | SniffResult.openErr => (buffer, CachedPreview.notFound)
  | SniffResult.metadataErr => (buffer, CachedPreview.notFound)
  | SniffResult.readErr bytesRead => (buffer ++ bytesRead, CachedPreview.notFound)
  | SniffResult.readOk _ =>
    ([],
      if f.isBinary then CachedPreview.binary
      else if f.size > MAX_FILE_SIZE_FOR_PREVIEW then CachedPreview.largeFile
      else
        match f.docOpen with
        | some doc => CachedPreview.document doc
        | none => CachedPreview.notFound)

/-- The parts of the `Editor` that `get_preview` reads: the opened-by-path
lookup (`editor.document_by_path`) and the document registry
(`editor.documents`). -/
structure PreviewEnv (Doc : Type) where
  documentsByPath : List (List Char × Doc)
  documentsById : List (Nat × Doc)

/-- Embeds `Picker::get_preview`. For a `Path`: an already opened editor
buffer wins, then a cache hit is returned as is (a cached un-highlighted
document also fires a highlight request, an effect outside this model), and
on a miss the path is classified and inserted into the cache. For an `Id`:
`editor.documents.get(&id).unwrap()` — the `unwrap` panic on an absent id is
modelled as `none`. Returns the cache, the scratch buffer and the preview. -/
def getPreview {Doc : Type} (env : PreviewEnv Doc)
    (cache : List (List Char × CachedPreview Doc)) (buffer : List Nat)
    (poi : PathOrId) (f : FileInfo Doc) :
    Option (List (List Char × CachedPreview Doc) × List Nat × PreviewRes Doc) :=
  match poi with
  | PathOrId.path p =>
    match alookup env.documentsByPath p with
    | some doc => some (cache, buffer, PreviewRes.editorDocument doc)
    | none =>
      match alookup cache p with
      | some cp => some (cache, buffer, PreviewRes.cached cp)
      | none =>
        let res := classifyPreview buffer f
        some (cache ++ [(p, res.2)], res.1, PreviewRes.cached res.2)
  | PathOrId.id i =>
    (alookup env.documentsById i).map
      (fun doc => (cache, buffer, PreviewRes.editorDocument doc))

/-! ### Concrete fixtures used by counterexamples and witnesses -/

/-- A concrete single-column schema over `Nat` items. -/
def colNat : Column Nat Unit :=
  { name := ['c'], format := fun _ _ => ['x'], filter := true }

/-- A concrete picker at generation 0 with an empty matcher. -/
def p0 : Picker Nat Unit :=
  { columns := [colNat], editorData := (), version := 0, matcher := [] }

/-- Concrete parser state for the C4 witness: the scan of a `%an` field
prefix has just reached the colon. -/
def stC4 : PState :=
  { escaped := false, quoted := false, inField := true,
    field := none, text := "an".toList, fields := [] }

/-- Concrete column names for the C4 witness. -/
def namesC4 : List (List Char) := ["another".toList, "anode".toList]

/-- Concrete parser state in the escaped mode, for the C5 witness. -/
def escSt : PState := { initPState with escaped := true }

end HelixPicker

namespace HelixPicker

-- Sanity checks replaying the unit tests of query.rs on the embedding.
example :
    parse ["primary".toList, "field1".toList] 0 "hello world".toList
      = [("primary".toList, "hello world".toList)] := by decide

example :
    parse ["primary".toList, "field1".toList, "field2".toList] 0
        "hello %field1:world %field2:!".toList
      = [("primary".toList, "hello".toList), ("field1".toList, "world".toList),
         ("field2".toList, "!".toList)] := by decide

example :
    parse ["primary".toList, "field1".toList] 0 "hello ".toList
      = [("primary".toList, "hello".toList)] := by decide

example :
    parse ["primary".toList, "field1".toList] 0 "hello %foo".toList
      = [("primary".toList, "hello".toList)] := by decide

example :
    qget (parse ["primary".toList, "field1".toList, "field2".toList,
        "another".toList, "anode".toList] 0 "hello %ano:abc".toList)
      "anode".toList = some "abc".toList := by decide

example :
    qget (parse ["primary".toList, "field1".toList, "field2".toList,
        "another".toList, "anode".toList] 0 "hello %field1:xyz %fie:abc".toList)
      "field1".toList = some "xyz abc".toList := by decide

/-! ## Helper lemmas -/

theorem pstep_bslash (names : List (List Char)) (pf : List Char) (st : PState) :
    pstep names pf st bslash = { st with escaped := !st.escaped } := by
  rw [pstep, if_pos rfl]

theorem pstep_escaped (names : List (List Char)) (pf : List Char) (st : PState)
    (ch : Char) (hch : ch ≠ bslash) (hE : st.escaped = true) :
    pstep names pf st ch =
      { st with
        text := st.text ++ (if ch = '%' ∨ ch = dquote then [ch] else [bslash, ch])
        escaped := false } := by
  rw [pstep, if_neg hch, if_pos hE]

theorem pstep_colon_inField (names : List (List Char)) (pf : List Char) (st : PState)
    (hE : st.escaped = false) (hQ : st.quoted = false) (hF : st.inField = true) :
    pstep names pf st ':' =
      { st with
        field := minByLen (names.filter (fun col => st.text.isPrefixOf col))
        text := []
        inField := false } := by
  rw [pstep, if_neg (by decide), if_neg (by simp [hE]), if_neg (by decide),
    if_neg (by simp [hQ]),
    if_neg (by rintro ⟨h | h, -⟩ <;> exact absurd h (by decide)),
    if_neg (by decide), if_pos ⟨rfl, hF⟩]

theorem pstep_space_finish (names : List (List Char)) (pf : List Char) (st : PState)
    (hE : st.escaped = false) (hQ : st.quoted = false) (hT : st.text ≠ []) :
    pstep names pf st ' ' = { finishField pf st with inField := false } := by
  rw [pstep, if_neg (by decide), if_neg (by simp [hE]), if_neg (by decide),
    if_neg (by simp [hQ]), if_pos ⟨Or.inr rfl, hT⟩]
  rfl

theorem pstep_space_empty (names : List (List Char)) (pf : List Char) (st : PState)
    (hE : st.escaped = false) (hQ : st.quoted = false) (hT : st.text = []) :
    pstep names pf st ' ' = { st with text := st.text ++ [' '] } := by
  rw [pstep, if_neg (by decide), if_neg (by simp [hE]), if_neg (by decide),
    if_neg (by simp [hQ]), if_neg (by rintro ⟨-, h⟩; exact h hT),
    if_neg (by decide), if_neg (by rintro ⟨h, -⟩; exact absurd h (by decide))]

theorem pstep_plain (names : List (List Char)) (pf : List Char) (st : PState)
    (ch : Char) (hE : st.escaped = false) (hQ : st.quoted = false)
    (hF : st.inField = false) (h1 : ch ≠ bslash) (h2 : ch ≠ dquote)
    (h3 : ch ≠ '%') (h4 : ch ≠ ' ') :
    pstep names pf st ch = { st with text := st.text ++ [ch] } := by
  rw [pstep, if_neg h1, if_neg (by simp [hE]), if_neg h2,
    if_neg (by simp [hQ]),
    if_neg (by rintro ⟨h | h, -⟩ <;> [exact h3 h; exact h4 h]),
    if_neg h3, if_neg (by simp [hF])]

theorem minStep_isSome (acc : Option (List Char)) (x : List Char) :
    ∃ y, minStep acc x = some y := by
  rcases acc with _ | a
  · exact ⟨x, rfl⟩
  · by_cases h : x.length < a.length
    · exact ⟨x, by simp [minStep, h]⟩
    · exact ⟨a, by simp [minStep, h]⟩

theorem minFold_some : ∀ (l : List (List Char)) (acc : Option (List Char)) (c : List Char),
    List.foldl minStep acc l = some c →
    (acc = some c ∨ c ∈ l) ∧ (∀ b ∈ l, c.length ≤ b.length) ∧
      (∀ a, acc = some a → c.length ≤ a.length) := by
  intro l
  induction l with
  | nil =>
    intro acc c h
    rw [List.foldl_nil] at h
    refine ⟨Or.inl h, by simp, fun a ha => ?_⟩
    rw [h] at ha
    cases ha
    exact Nat.le_refl _
  | cons x xs ih =>
    intro acc c h
    rw [List.foldl_cons] at h
    obtain ⟨hd, hall, hacc⟩ := ih (minStep acc x) c h
    have hx : c.length ≤ x.length := by
      rcases hd2 : acc with _ | a
      · exact hacc x (by simp [minStep, hd2])
      · by_cases hlt : x.length < a.length
        · exact hacc x (by simp [minStep, hd2, hlt])
        · have := hacc a (by simp [minStep, hd2, hlt])
          omega
    refine ⟨?_, ?_, ?_⟩
    · rcases hd with hd | hd
      · rcases hd2 : acc with _ | a
        · rw [hd2] at hd
          simp [minStep] at hd
          exact Or.inr (by rw [← hd]; exact List.mem_cons_self x xs)
        · rw [hd2] at hd
          by_cases hlt : x.length < a.length
          · simp [minStep, hlt] at hd
            exact Or.inr (by rw [← hd]; exact List.mem_cons_self x xs)
          · simp [minStep, hlt] at hd
            exact Or.inl (congrArg some hd)
      · exact Or.inr (List.mem_cons_of_mem _ hd)
    · intro b hb
      rcases List.mem_cons.mp hb with hb | hb
      · rw [hb]; exact hx
      · exact hall b hb
    · intro a ha
      rcases hd2 : acc with _ | a0
      · rw [hd2] at ha; cases ha
      · rw [hd2] at ha
        cases ha
        by_cases hlt : x.length < a.length
        · have h1 := hacc x (by simp [minStep, hd2, hlt])
          omega
        · exact hacc a (by simp [minStep, hd2, hlt])

theorem minFold_none : ∀ (l : List (List Char)) (acc : Option (List Char)),
    List.foldl minStep acc l = none → acc = none ∧ l = [] := by
  intro l
  induction l with
  | nil =>
    intro acc h
    rw [List.foldl_nil] at h
    exact ⟨h, rfl⟩
  | cons x xs ih =>
    intro acc h
    rw [List.foldl_cons] at h
    obtain ⟨hn, -⟩ := ih _ h
    obtain ⟨y, hy⟩ := minStep_isSome acc x
    rw [hy] at hn
    exact Option.noConfusion hn

theorem minByLen_some (l : List (List Char)) (c : List Char) (h : minByLen l = some c) :
    c ∈ l ∧ ∀ b ∈ l, c.length ≤ b.length := by
  obtain ⟨hd, hall, -⟩ := minFold_some l none c h
  rcases hd with hd | hd
  · exact Option.noConfusion hd
  · exact ⟨hd, hall⟩

theorem minByLen_none (l : List (List Char)) (h : minByLen l = none) : l = [] :=
  (minFold_none l none h).2

theorem qget_qinsertAppend_self (q : List (List Char × List Char)) (k t : List Char) :
    qget (qinsertAppend q k t) k = some (joinW (qget q k) t) := by
  induction q with
  | nil => simp [qinsertAppend, qget, joinW]
  | cons p rest ih =>
    obtain ⟨k0, v⟩ := p
    by_cases h : k0 = k
    · simp [qinsertAppend, qget, h, joinW]
    · simp [qinsertAppend, qget, h, ih]

theorem qget_qinsertAppend_ne (q : List (List Char × List Char)) (k t k2 : List Char)
    (h : k2 ≠ k) : qget (qinsertAppend q k t) k2 = qget q k2 := by
  induction q with
  | nil => simp [qinsertAppend, qget, Ne.symm h]
  | cons p rest ih =>
    obtain ⟨k0, v⟩ := p
    by_cases h0 : k0 = k
    · subst h0
      simp [qinsertAppend, qget, Ne.symm h]
    · simp [qinsertAppend, qget, h0, ih]

theorem push_eq_error {T D : Type} (inj : Injector T D) (p : Picker T D) (item : T)
    (h : inj.version ≠ p.version) :
    Injector.push inj p item = Except.error InjectorShutdown.mk := by
  rw [Injector.push, if_pos h]

theorem push_eq_ok {T D : Type} (inj : Injector T D) (p : Picker T D) (item : T)
    (h : inj.version = p.version) :
    Injector.push inj p item =
      Except.ok { p with matcher := injectNucleoItem p.matcher inj.columns item inj.editorData } := by
  rw [Injector.push, if_neg (by exact fun hn => hn h)]

/-! ## Claims -/

/-- C1, corrected. The claim states that `set_options` increments the
generation counter so that the next `Injector::push` on a previously created
injector fails with `InjectorShutdown`. In the code `set_options` only calls
`matcher.restart(false)` and re-injects; the counter is untouched, so the
push succeeds: at the concrete picker `p0`, after `set_options` the version
is unchanged and the push of a previously created injector returns `Ok`. -/
theorem c1_counterexample :
    (setOptions p0 [1, 2]).version = p0.version ∧
    exceptIsOk (Injector.push (Picker.injector p0) (setOptions p0 [1, 2]) 3) = true :=
  ⟨rfl, rfl⟩

/-- C1, amended: `set_options` restarts the matcher and injects the new
options but does not change the generation counter, so the next push on an
injector created before the call still succeeds; only close (of a picker
with at most 100000 items) and drop increment the counter. -/
theorem c1_set_options_generation {T D : Type} (p : Picker T D) (opts : List T) (item : T) :
    (setOptions p opts).version = p.version ∧
    exceptIsOk (Injector.push (Picker.injector p) (setOptions p opts) item) = true ∧
    (closePicker p).version = p.version + 1 ∧
    (dropPicker p).version = p.version + 1 := by
  refine ⟨rfl, ?_, rfl, rfl⟩
  rw [push_eq_ok _ _ _ rfl]
  rfl

/-- C2, confirmed. `Injector::push` returns `InjectorShutdown` exactly when
the generation captured at injector creation differs from the current value
of the shared counter; otherwise it formats and submits the item. Dropping
the picker increments the counter, so every injector whose captured
generation is at most the current one fails on its next push afterwards. -/
theorem c2_push_shutdown_iff {T D : Type} (inj : Injector T D) (p : Picker T D) (item : T) :
    (Injector.push inj p item = Except.error InjectorShutdown.mk ↔ inj.version ≠ p.version) ∧
    (inj.version = p.version →
      Injector.push inj p item =
        Except.ok { p with matcher := injectNucleoItem p.matcher inj.columns item inj.editorData }) ∧
    (inj.version ≤ p.version →
      Injector.push inj (dropPicker p) item = Except.error InjectorShutdown.mk) := by
  refine ⟨⟨fun he => ?_, fun hne => push_eq_error _ _ _ hne⟩,
    fun h => push_eq_ok _ _ _ h, fun hle => push_eq_error _ _ _ ?_⟩
  · intro hv
    rw [push_eq_ok _ _ _ hv] at he
    exact Except.noConfusion he
  · show inj.version ≠ p.version + 1
    omega

/-- C2 witness: a freshly created injector of the concrete picker `p0`
satisfies the capture hypothesis, and its push after drop fails. -/
theorem c2_witness :
    (Picker.injector p0).version ≤ p0.version ∧
    Injector.push (Picker.injector p0) (dropPicker p0) 7 = Except.error InjectorShutdown.mk :=
  ⟨by decide, (c2_push_shutdown_iff (Picker.injector p0) p0 7).2.2 (by decide)⟩

/-- C3, corrected. The claim formula `(cursor + n) mod len` fails for a
forward move whose addition saturates: with `cursor = 2`, `n = u32::MAX`
and `len = 3` the code computes `(2 saturating+ 4294967295) % 3 = 0` while
the claim predicts `(2 + 4294967295) mod 3 = 2`. -/
theorem c3_counterexample :
    moveBy 2 4294967295 Direction.forward 3 = 0 ∧
    (2 + 4294967295) % 3 = 2 ∧
    moveBy 2 4294967295 Direction.forward 3 ≠ (2 + 4294967295) % 3 := by decide

/-- C3, amended: when the u32 additions do not saturate, forward movement
sets the cursor to `(cursor + n) % len` and backward movement to
`(cursor + len - n) % len` with subtraction truncated at zero, wrapping at
both ends; when `len = 0` every movement leaves the cursor unchanged. -/
theorem c3_moveBy_amended (cursor amount len : Nat) (hlen : 0 < len)
    (hf : cursor + amount ≤ U32MAX) (hb : cursor + len ≤ U32MAX) :
    moveBy cursor amount Direction.forward len = (cursor + amount) % len ∧
    moveBy cursor amount Direction.backward len = (cursor + len - amount) % len ∧
    ∀ (n : Nat) (d : Direction), moveBy cursor n d 0 = cursor := by
  unfold moveBy satAdd
  refine ⟨?_, ?_, fun n d => rfl⟩
  · rw [if_neg (by omega)]
    show min (cursor + amount) U32MAX % len = (cursor + amount) % len
    rw [min_eq_left hf]
  · rw [if_neg (by omega)]
    show (min (cursor + len) U32MAX - amount) % len = (cursor + len - amount) % len
    rw [min_eq_left hb]

/-- C3 witness: the amended statement instantiated at `cursor = 5`,
`n = 2`, `len = 3`. -/
theorem c3_witness :
    0 < 3 ∧ 5 + 2 ≤ U32MAX ∧ 5 + 3 ≤ U32MAX ∧
    (moveBy 5 2 Direction.forward 3 = (5 + 2) % 3 ∧
     moveBy 5 2 Direction.backward 3 = (5 + 3 - 2) % 3 ∧
     ∀ (n : Nat) (d : Direction), moveBy 5 n d 0 = 5) :=
  ⟨by decide, by decide, by decide,
    c3_moveBy_amended 5 2 3 (by decide) (by decide) (by decide)⟩

/-- C8, corrected. The claim says the preview is suppressed only when the
area is narrower than 72 columns; the code requires `width > 72`, so at a
width of exactly 72 (not narrower than the minimum) the picker still
occupies the full area. -/
theorem c8_counterexample :
    renderLayout true true 72 = (72, none) ∧
    ¬(72 < MIN_AREA_WIDTH_FOR_PREVIEW) ∧
    ¬(MIN_AREA_WIDTH_FOR_PREVIEW < 72) := by decide

/-- C8, amended: the picker occupies the full area exactly when the preview
is disabled, no preview function is set, or the area width is at most 72
columns (rendering the preview requires a width strictly greater than 72);
otherwise the picker gets the left `w / 2` columns and the preview the
remaining `w - w / 2`. -/
theorem c8_layout_amended (s f : Bool) (w : Nat) :
    (renderLayout s f w = (w, none) ↔
      (s = false ∨ f = false ∨ w ≤ MIN_AREA_WIDTH_FOR_PREVIEW)) ∧
    (s = true → f = true → MIN_AREA_WIDTH_FOR_PREVIEW < w →
      renderLayout s f w = (w / 2, some (w - w / 2))) := by
  by_cases h : MIN_AREA_WIDTH_FOR_PREVIEW < w
  · cases s <;> cases f <;> simp [renderLayout, decide_eq_true h] <;> omega
  · cases s <;> cases f <;> simp [renderLayout, decide_eq_false h] <;> omega

/-- C8 witness: at width 100 with preview enabled and a preview function
set, the area is split 50/50. -/
theorem c8_witness :
    MIN_AREA_WIDTH_FOR_PREVIEW < 100 ∧
    renderLayout true true 100 = (100 / 2, some (100 - 100 / 2)) :=
  ⟨by decide, (c8_layout_amended true true 100).2 rfl rfl (by decide)⟩

/-- C9, corrected. The claim asserts the scratch buffer is empty after
every cache-miss classification, including failing reads. When the
content-sniff `read_to_end` fails, the bytes it already read stay appended
to the buffer and the `?` operator skips the `clear()`: classifying a path
whose sniff read fails after one byte leaves the buffer equal to `[7]`. -/
theorem c9_counterexample :
    getPreview (⟨[], []⟩ : PreviewEnv Unit) [] [] (PathOrId.path ['a'])
        ⟨0, SniffResult.readErr [7], false, none⟩
      = some ([(['a'], CachedPreview.notFound)], [7],
          PreviewRes.cached CachedPreview.notFound) ∧
    ([7] : List Nat) ≠ [] :=
  ⟨rfl, by decide⟩

/-- C9, amended: starting from an empty scratch buffer, after every
cache-miss classification in which the content-sniff read does not fail —
including classifications where opening the file or reading its metadata
fails — the buffer is empty again; only a failing sniff read can leave
bytes behind. -/
theorem c9_buffer_amended {Doc : Type} (env : PreviewEnv Doc)
    (cache : List (List Char × CachedPreview Doc)) (p : List Char) (f : FileInfo Doc)
    (hdoc : alookup env.documentsByPath p = none)
    (hcache : alookup cache p = none)
    (hread : ∀ b, f.sniff ≠ SniffResult.readErr b) :
    ∃ cache2 prev, getPreview env cache [] (PathOrId.path p) f = some (cache2, [], prev) := by
  have hbuf : (classifyPreview ([] : List Nat) f).1 = [] := by
    cases hs : f.sniff with
    | readErr b => exact absurd hs (hread b)
    | openErr => simp [classifyPreview, hs]
    | metadataErr => simp [classifyPreview, hs]
    | readOk bs => simp [classifyPreview, hs]
  refine ⟨cache ++ [(p, (classifyPreview ([] : List Nat) f).2)],
    PreviewRes.cached (classifyPreview ([] : List Nat) f).2, ?_⟩
  simp [getPreview, hdoc, hcache, hbuf]

/-- C9 witness: a failing `File::open` on a cache miss leaves the buffer
empty. -/
theorem c9_witness :
    alookup (PreviewEnv.documentsByPath (⟨[], []⟩ : PreviewEnv Unit)) ['a'] = none ∧
    (∀ b, (⟨0, SniffResult.openErr, false, none⟩ : FileInfo Unit).sniff
        ≠ SniffResult.readErr b) ∧
    ∃ cache2 prev,
      getPreview (⟨[], []⟩ : PreviewEnv Unit) [] [] (PathOrId.path ['a'])
        ⟨0, SniffResult.openErr, false, none⟩ = some (cache2, [], prev) :=
  ⟨rfl, fun b h => SniffResult.noConfusion h,
    c9_buffer_amended (⟨[], []⟩ : PreviewEnv Unit) [] ['a']
      ⟨0, SniffResult.openErr, false, none⟩ rfl rfl
      (fun b h => SniffResult.noConfusion h)⟩

/-- C10, confirmed. The `Id` branch of `get_preview` unwraps the registry
lookup: for every document id absent from the registry the call panics
(modelled as `none`) instead of producing a `Preview` or a `NotFound`
placeholder. -/
theorem c10_id_unwrap_panics {Doc : Type} (env : PreviewEnv Doc)
    (cache : List (List Char × CachedPreview Doc)) (buffer : List Nat)
    (i : Nat) (f : FileInfo Doc)
    (habsent : alookup env.documentsById i = none) :
    getPreview env cache buffer (PathOrId.id i) f = none := by
  simp [getPreview, habsent]

/-- C10 witness: id 5 is absent from an empty registry and the preview
call panics (returns `none`). -/
theorem c10_witness :
    alookup (PreviewEnv.documentsById (⟨[], []⟩ : PreviewEnv Unit)) 5 = none ∧
    getPreview (⟨[], []⟩ : PreviewEnv Unit) [] [] (PathOrId.id 5)
      ⟨0, SniffResult.openErr, false, none⟩ = none :=
  ⟨rfl, c10_id_unwrap_panics (⟨[], []⟩ : PreviewEnv Unit) [] [] 5
    ⟨0, SniffResult.openErr, false, none⟩ rfl⟩

/-- C4, confirmed. When the scan is inside a `%` token and reaches the
colon, the pending prefix text resolves to a declared column: if some
column is selected it starts with the prefix and its name length is minimal
among all columns starting with the prefix; if no declared column starts
with the prefix nothing is selected (the redirect is dropped), and the
following text is then finished into the primary column, because
`finish_field!` falls back to the primary field whenever no field is
pending (last conjunct, stated for every state with its destination key). -/
theorem c4_field_redirect (names : List (List Char)) (pf : List Char) (st : PState)
    (hE : st.escaped = false) (hQ : st.quoted = false) (hF : st.inField = true) :
    (pstep names pf st ':').inField = false ∧
    (pstep names pf st ':').text = [] ∧
    (∀ c, (pstep names pf st ':').field = some c →
      st.text.isPrefixOf c = true ∧ c ∈ names ∧
        ∀ b ∈ names, st.text.isPrefixOf b = true → c.length ≤ b.length) ∧
    ((pstep names pf st ':').field = none →
      ∀ b ∈ names, st.text.isPrefixOf b = false) ∧
    (∀ s : PState,
      qget (finishField pf s).fields (s.field.getD pf)
        = some (joinW (qget s.fields (s.field.getD pf)) s.text)) := by
  rw [pstep_colon_inField names pf st hE hQ hF]
  refine ⟨rfl, rfl, ?_, ?_, ?_⟩
  · intro c hc
    obtain ⟨hmem, hall⟩ := minByLen_some _ c hc
    rw [List.mem_filter] at hmem
    exact ⟨hmem.2, hmem.1, fun b hb hpre => hall b (List.mem_filter.mpr ⟨hb, hpre⟩)⟩
  · intro hnone b hb
    have hfilter := minByLen_none _ hnone
    cases hpre : st.text.isPrefixOf b with
    | false => rfl
    | true =>
      have hb2 : b ∈ names.filter (fun col => st.text.isPrefixOf col) :=
        List.mem_filter.mpr ⟨hb, hpre⟩
      rw [hfilter] at hb2
      exact absurd hb2 (List.not_mem_nil b)
  · intro s
    rw [finishField]
    exact qget_qinsertAppend_self _ _ _

/-- C4 witness: with columns `another` and `anode` and pending prefix `an`,
the colon step selects a column and the selection facts hold. -/
theorem c4_witness :
    (stC4.escaped = false ∧ stC4.quoted = false ∧ stC4.inField = true) ∧
    ((pstep namesC4 ['p'] stC4 ':').inField = false ∧
     (pstep namesC4 ['p'] stC4 ':').text = [] ∧
     (∀ c, (pstep namesC4 ['p'] stC4 ':').field = some c →
        stC4.text.isPrefixOf c = true ∧ c ∈ namesC4 ∧
          ∀ b ∈ namesC4, stC4.text.isPrefixOf b = true → c.length ≤ b.length) ∧
     ((pstep namesC4 ['p'] stC4 ':').field = none →
        ∀ b ∈ namesC4, stC4.text.isPrefixOf b = false) ∧
     (∀ s : PState,
        qget (finishField ['p'] s).fields (s.field.getD ['p'])
          = some (joinW (qget s.fields (s.field.getD ['p'])) s.text))) :=
  ⟨⟨rfl, rfl, rfl⟩, c4_field_redirect namesC4 ['p'] stC4 rfl rfl rfl⟩

/-- C5, corrected. The claim says a backslash escapes exactly the next
character and any escaped character other than `%` and `"` is preserved
together with its leading backslash. A backslash in fact toggles the
escaped state, so an escaped backslash is not preserved: parsing the three
characters backslash, backslash, `b` yields the primary pattern `b`, not
the unchanged input predicted by the claim. -/
theorem c5_counterexample :
    qget (parse [['p']] 0 [bslash, bslash, 'b']) ['p'] = some ['b'] ∧
    some (['b'] : List Char) ≠ some [bslash, bslash, 'b'] := by
  refine ⟨rfl, ?_⟩
  decide

/-- C5, amended: a backslash toggles the one-character escaped state (so
two consecutive backslashes cancel and insert nothing); in the escaped
state `%` and `"` lose their syntactic meaning and are inserted literally,
and any other escaped character — necessarily not a backslash — is
preserved together with its leading backslash (so `\b` stays `\b`). -/
theorem c5_escape_amended (names : List (List Char)) (pf : List Char)
    (st : PState) (ch : Char) (hch : ch ≠ bslash) :
    pstep names pf st bslash = { st with escaped := !st.escaped } ∧
    (st.escaped = true →
      pstep names pf st ch =
        { st with
          text := st.text ++ (if ch = '%' ∨ ch = dquote then [ch] else [bslash, ch])
          escaped := false }) :=
  ⟨pstep_bslash names pf st, fun hE => pstep_escaped names pf st ch hch hE⟩

/-- C5 witness: from the escaped state, the character `b` is inserted with
its leading backslash, and a backslash toggles the escaped flag. -/
theorem c5_witness :
    ('b' ≠ bslash) ∧
    (pstep [['p']] ['p'] escSt bslash = { escSt with escaped := !escSt.escaped } ∧
     (escSt.escaped = true →
       pstep [['p']] ['p'] escSt 'b' =
         { escSt with
           text := escSt.text ++ (if 'b' = '%' ∨ 'b' = dquote then ['b'] else [bslash, 'b'])
           escaped := false })) :=
  ⟨by decide, c5_escape_amended [['p']] ['p'] escSt 'b' (by decide)⟩

/-- C7, confirmed. When the parsed query differs from the stored one,
`handle_prompt_change` issues one `reparse` call per filtered column in
order, and the append hint of such a call is true exactly when the old
query holds a pattern for that column and the new pattern (empty when the
column is absent from the new query) starts with it. -/
theorem c7_append_hint {T D : Type} (columns : List (Column T D))
    (names : List (List Char)) (primaryColumn : Nat)
    (oldQuery : List (List Char × List Char)) (line : List Char)
    (hchange : queryEq (parse names primaryColumn line) oldQuery = false) :
    (handlePromptChange columns names primaryColumn oldQuery line).2
      = ((columns.filter (fun c => c.filter)).enum).map
          (reparseCmd (parse names primaryColumn line) oldQuery) ∧
    ∀ (i : Nat) (col : Column T D),
      ((reparseCmd (parse names primaryColumn line) oldQuery (i, col)).2.2 = true ↔
        ∃ oldPattern, qget oldQuery col.name = some oldPattern ∧
          oldPattern.isPrefixOf
            ((qget (parse names primaryColumn line) col.name).getD []) = true) := by
  constructor
  · simp [handlePromptChange, hchange]
  · intro i col
    cases hold : qget oldQuery col.name with
    | none => simp [reparseCmd, hold]
    | some oldPattern => simp [reparseCmd, hold]

/-- C7 witness: typing `x` into an empty single-column picker changes the
query; the reparse command list and the append-hint characterization hold. -/
theorem c7_witness :
    queryEq (parse [['c']] 0 ['x']) [] = false ∧
    ((handlePromptChange [colNat] [['c']] 0 [] ['x']).2
        = (([colNat].filter (fun c => c.filter)).enum).map
            (reparseCmd (parse [['c']] 0 ['x']) []) ∧
     ∀ (i : Nat) (col : Column Nat Unit),
       ((reparseCmd (parse [['c']] 0 ['x']) [] (i, col)).2.2 = true ↔
         ∃ oldPattern, qget [] col.name = some oldPattern ∧
           oldPattern.isPrefixOf
             ((qget (parse [['c']] 0 ['x']) col.name).getD []) = true)) :=
  ⟨by decide, c7_append_hint [colNat] [['c']] 0 [] ['x'] (by decide)⟩

/-! ## C6: plain inputs and whitespace collapsing -/

theorem noDoubleSpace_tail (a : Char) (l : List Char)
    (h : noDoubleSpace (a :: l) = true) : noDoubleSpace l = true := by
  cases l with
  | nil => rfl
  | cons b rest =>
    simp [noDoubleSpace] at h
    simp [noDoubleSpace, h.2]

theorem noDoubleSpace_space_head (l : List Char)
    (h : noDoubleSpace (' ' :: l) = true) : l.head? ≠ some ' ' := by
  cases l with
  | nil => simp
  | cons b rest =>
    simp [noDoubleSpace] at h
    simp
    intro hb
    exact absurd hb h.1

theorem qinsert_fieldsOf (pf : List Char) (acc : Option (List Char)) (t : List Char) :
    qinsertAppend (fieldsOf pf acc) pf t = fieldsOf pf (some (joinW acc t)) := by
  cases acc with
  | none => rfl
  | some f => simp [fieldsOf, qinsertAppend, joinW]

theorem joinW_ne_nil (acc : Option (List Char)) (w : List Char) (hw : w ≠ []) :
    joinW acc w ≠ [] := by
  cases acc with
  | none => exact hw
  | some f => simp [joinW]

theorem qget_fieldsOf_self (pf f : List Char) :
    qget (fieldsOf pf (some f)) pf = some f := by
  simp [fieldsOf, qget]

theorem qget_fieldsOf_ne (pf : List Char) (acc : Option (List Char)) (k : List Char)
    (h : k ≠ pf) : qget (fieldsOf pf acc) k = none := by
  cases acc with
  | none => rfl
  | some f => simp [fieldsOf, qget, Ne.symm h]

/-- On plain characters the scan is the collapse fold, except that a space
meeting empty pending text is pushed literally; with no leading space and
no double space that situation never arises, and the scan state tracks the
collapse accumulator exactly. The second conjunct records that every
accumulated pattern is nonempty. -/
theorem run_plain (names : List (List Char)) (pf : List Char) :
    ∀ (l : List Char) (acc : Option (List Char)) (cur : List Char),
      (∀ c ∈ l, plainChar c) → noDoubleSpace l = true →
      (cur = [] → l.head? ≠ some ' ') →
      (∀ f, acc = some f → f ≠ []) →
      List.foldl (pstep names pf) (cleanSt (fieldsOf pf acc) cur) l
          = cleanSt (fieldsOf pf (collapseAux acc cur l).1) (collapseAux acc cur l).2
        ∧ ∀ f, (collapseAux acc cur l).1 = some f → f ≠ [] := by
  intro l
  induction l with
  | nil =>
    intro acc cur hplain hdouble hhead hacc
    exact ⟨rfl, hacc⟩
  | cons c rest ih =>
    intro acc cur hplain hdouble hhead hacc
    obtain ⟨hc1, hc2, hc3⟩ := hplain c (List.mem_cons_self c rest)
    have hplain2 : ∀ x ∈ rest, plainChar x :=
      fun x hx => hplain x (List.mem_cons_of_mem c hx)
    have hdouble2 := noDoubleSpace_tail c rest hdouble
    by_cases hsp : c = ' '
    · subst hsp
      have hcur : cur ≠ [] := fun hnil => hhead hnil rfl
      have hstep : pstep names pf (cleanSt (fieldsOf pf acc) cur) ' '
          = cleanSt (fieldsOf pf (some (joinW acc cur))) [] := by
        rw [pstep_space_finish names pf _ rfl rfl hcur]
        show cleanSt (qinsertAppend (fieldsOf pf acc) pf cur) [] = _
        rw [qinsert_fieldsOf]
      have hAux : collapseAux acc cur (' ' :: rest)
          = collapseAux (some (joinW acc cur)) [] rest := by
        simp [collapseAux, hcur]
      rw [List.foldl_cons, hstep, hAux]
      exact ih (some (joinW acc cur)) [] hplain2 hdouble2
        (fun _ => noDoubleSpace_space_head rest hdouble)
        (fun f hf => by cases hf; exact joinW_ne_nil acc cur hcur)
    · have hstep : pstep names pf (cleanSt (fieldsOf pf acc) cur) c
          = cleanSt (fieldsOf pf acc) (cur ++ [c]) := by
        rw [pstep_plain names pf _ c rfl rfl rfl hc3 hc2 hc1 hsp]
        rfl
      have hAux : collapseAux acc cur (c :: rest)
          = collapseAux acc (cur ++ [c]) rest := by
        simp [collapseAux, hsp]
      rw [List.foldl_cons, hstep, hAux]
      exact ih acc (cur ++ [c]) hplain2 hdouble2
        (fun h => absurd h (by simp)) hacc

/-- C6, corrected. The claim fails on three kinds of inputs without `%` or
`"`: a leading space is pushed literally into the pending text (the space
arm requires nonempty text, so the default arm runs), spaces inside a run
beyond the first are preserved the same way, and two consecutive
backslashes cancel to nothing. In each case the primary pattern is not the
whitespace-collapse of the input. -/
theorem c6_counterexample :
    qget (parse [['p']] 0 [' ', 'a']) ['p'] = some [' ', 'a'] ∧
    collapse [' ', 'a'] = ['a'] ∧
    qget (parse [['p']] 0 ['a', ' ', ' ', 'b']) ['p'] = some ['a', ' ', ' ', 'b'] ∧
    collapse ['a', ' ', ' ', 'b'] = ['a', ' ', 'b'] ∧
    qget (parse [['p']] 0 [bslash, bslash]) ['p'] = none ∧
    collapse [bslash, bslash] = [bslash, bslash] := by
  refine ⟨rfl, rfl, rfl, rfl, rfl, ?_⟩
  rfl

/-- C6, amended: for every input without `%`, `"` or backslash, without a
leading space and without two consecutive spaces, the parsed query maps
the primary column to the whitespace-collapse of the input (the entry is
omitted when the collapse is empty) and contains no other column. -/
theorem parse_unfold (names : List (List Char)) (primaryColumn : Nat) (input : List Char) :
    parse names primaryColumn input =
      (if (input.foldl (pstep names (names.getD primaryColumn [])) initPState).inField = false ∧
          (input.foldl (pstep names (names.getD primaryColumn [])) initPState).text ≠ []
       then finishField (names.getD primaryColumn [])
         (input.foldl (pstep names (names.getD primaryColumn [])) initPState)
       else input.foldl (pstep names (names.getD primaryColumn [])) initPState).fields := rfl

theorem c6_plain_collapse (names : List (List Char)) (primaryColumn : Nat) (l : List Char)
    (hplain : ∀ c ∈ l, plainChar c)
    (hdouble : noDoubleSpace l = true)
    (hlead : l.head? ≠ some ' ') :
    (qget (parse names primaryColumn l) (names.getD primaryColumn [])
        = if collapse l = [] then none else some (collapse l)) ∧
    ∀ k, k ≠ names.getD primaryColumn [] → qget (parse names primaryColumn l) k = none := by
  have hrun := run_plain names (names.getD primaryColumn []) l none []
    hplain hdouble (fun _ => hlead) (fun f hf => Option.noConfusion hf)
  have hA := hrun.2
  rw [parse_unfold,
    show initPState = cleanSt (fieldsOf (names.getD primaryColumn []) none) [] from rfl,
    hrun.1]
  by_cases hC : ((collapseAux none [] l).2 : List Char) = []
  · rw [if_neg (fun hand => hand.2 hC)]
    refine ⟨?_, fun k hk => qget_fieldsOf_ne _ _ k hk⟩
    cases hA2 : (collapseAux none [] l).1 with
    | none =>
      rw [collapse, if_pos hC, hA2]
      rfl
    | some f =>
      have hf : f ≠ [] := hA f hA2
      rw [collapse, if_pos hC, hA2]
      rw [if_neg (show ¬(((some f).getD [] : List Char) = []) from hf)]
      exact qget_fieldsOf_self _ f
  · rw [if_pos ⟨rfl, fun h => hC h⟩]
    have hff : (finishField (names.getD primaryColumn [])
        (cleanSt (fieldsOf (names.getD primaryColumn []) (collapseAux none [] l).1)
          (collapseAux none [] l).2)).fields
        = fieldsOf (names.getD primaryColumn [])
            (some (joinW (collapseAux none [] l).1 (collapseAux none [] l).2)) := by
      show qinsertAppend (fieldsOf (names.getD primaryColumn []) (collapseAux none [] l).1)
        (names.getD primaryColumn []) (collapseAux none [] l).2 = _
      exact qinsert_fieldsOf _ _ _
    rw [hff]
    have hne : joinW (collapseAux none [] l).1 (collapseAux none [] l).2 ≠ [] :=
      joinW_ne_nil _ _ hC
    refine ⟨?_, fun k hk => qget_fieldsOf_ne _ _ k hk⟩
    rw [collapse, if_neg hC, if_neg hne]
    exact qget_fieldsOf_self _ _

/-- C6 witness: the amended statement instantiated at the input `a b `
(one interior and one trailing space), whose collapse is `a b`. -/
theorem c6_witness :
    (∀ c ∈ ['a', ' ', 'b', ' '], plainChar c) ∧
    noDoubleSpace ['a', ' ', 'b', ' '] = true ∧
    (['a', ' ', 'b', ' '].head? ≠ some ' ') ∧
    ((qget (parse [['p']] 0 ['a', ' ', 'b', ' ']) (([['p']] : List (List Char)).getD 0 [])
        = if collapse ['a', ' ', 'b', ' '] = [] then none
          else some (collapse ['a', ' ', 'b', ' '])) ∧
     ∀ k, k ≠ ([['p']] : List (List Char)).getD 0 [] →
        qget (parse [['p']] 0 ['a', ' ', 'b', ' ']) k = none) :=
  ⟨by decide, by decide, by decide,
    c6_plain_collapse [['p']] 0 ['a', ' ', 'b', ' '] (by decide) (by decide) (by decide)⟩

end HelixPicker
